import Mathlib

/-!
Shallow embedding of the Entity Component System module
(`code/ecs/ecs.py` and `code/ecs/errors.py`) of the ninjelda repository.

Modelling conventions:
* `Entity` identifiers are `Nat`.  The Python code draws fresh ids with
  `uuid4`; the embedding draws them from the scene's `nextId` counter,
  which models the assumption that ids never collide.
* Python `type` objects (component classes, system classes) are `Nat` tags.
* Component instances are heap cells (`Nat → CompObj`): a cell records the
  component's concrete type together with the `scene` / `entity`
  back-reference attributes set by `Component.init_entity`.  `none` models
  an attribute that is unset or was assigned `None`.
* Python `dict`s become association lists (`alookup` / `aupdate` /
  `aerase`), preserving insertion order, python `set`s of entity ids become
  duplicate-free `List Nat` with `setAdd` / `setRemove` (`set.remove`
  raises `KeyError` when the element is absent), and the
  `defaultdict(set)` type index becomes a total function
  `Nat → List Nat` whose default value is the empty set.
* Exceptions become `Except PyErr`; `PyErr` covers the `errors.py`
  hierarchy plus the builtin exceptions the code can raise.
-/

namespace ECS

/-- Exceptions raised by the ECS code: the three `errors.py` classes plus
the Python builtins `KeyError`, `IndexError` and `UnboundLocalError`. -/
inductive PyErr where
  | missingEntity
  | missingComponent
  | missingSystem
  | keyError
  | indexError
  | unboundLocal
deriving DecidableEq, Repr

/-- Projection used to state facts about which exception a call raises. -/
def exceptErr {α : Type} : Except PyErr α → Option PyErr
  | .error e => some e
  | .ok _ => none

/-- Python `dict` lookup on an insertion-ordered association list. -/
def alookup {κ α : Type} [DecidableEq κ] (k : κ) : List (κ × α) → Option α
  | [] => none
  | (k1, v) :: rest => if k1 = k then some v else alookup k rest

/-- Python `dict` assignment `d[k] = v`: replace in place when the key is
present, append otherwise. -/
def aupdate {κ α : Type} [DecidableEq κ] (k : κ) (v : α) : List (κ × α) → List (κ × α)
  | [] => [(k, v)]
  | (k1, v1) :: rest =>
    if k1 = k then (k, v) :: rest else (k1, v1) :: aupdate k v rest

/-- Python `dict` deletion (`del d[k]` / `d.pop(k)` after a membership
check); dict keys are unique, so filtering is key removal. -/
def aerase {κ α : Type} [DecidableEq κ] (k : κ) (l : List (κ × α)) : List (κ × α) :=
  l.filter (fun p => p.1 ≠ k)

/-- Python `set.add`. -/
def setAdd (e : Nat) (l : List Nat) : List Nat :=
  if e ∈ l then l else e :: l

/-- Python `set.remove`: raises `KeyError` when the element is absent. -/
def setRemove (e : Nat) (l : List Nat) : Except PyErr (List Nat) :=
  if e ∈ l then .ok (l.filter (fun x => x ≠ e)) else .error .keyError

/-- A component instance: its concrete type and the back-reference
attributes `scene` / `entity` assigned by `Component.init_entity`. -/
structure CompObj where
  ctype : Nat
  scene : Option Nat := none
  entity : Option Nat := none
deriving DecidableEq, Repr

/-- The `Scene` state: the entity index `_entities` (entity id to
per-entity component dict mapping component type to component id), the
type index `_components` (`defaultdict(set)`), the component heap, the
priority-sorted system buckets `_systems`, the priority set `_priorities`,
and the fresh-id counter. -/
structure Scene where
  entities : List (Nat × List (Nat × Nat))
  comps : Nat → List Nat
  heap : Nat → CompObj
  systems : List (Int × List (Nat × Nat))
  priorities : List Int
  nextId : Nat
  sceneId : Nat

/-- `Scene.__init__`, parameterised by the pre-existing component heap
(the user constructs component objects before attaching them). -/
def Scene.mkInit (h : Nat → CompObj) : Scene :=
  { entities := [], comps := fun _ => [], heap := h,
    systems := [], priorities := [], nextId := 0, sceneId := 0 }

/-- `Component.init_entity`: set the component's `scene` and `entity`
back-references. -/
def initEntity (h : Nat → CompObj) (sid c e : Nat) : Nat → CompObj :=
  fun i => if i = c then { h c with scene := some sid, entity := some e } else h i

/-- `self._components[t].add(e)` on the type index. -/
def compsAdd (cm : Nat → List Nat) (t e : Nat) : Nat → List Nat :=
  fun T => if T = t then setAdd e (cm T) else cm T

/-- One iteration of the `create_entity` loop, acting on the new entity's
component dict, the type index and the heap. -/
def createStep (sid e : Nat)
    (acc : List (Nat × Nat) × (Nat → List Nat) × (Nat → CompObj)) (c : Nat) :
    List (Nat × Nat) × (Nat → List Nat) × (Nat → CompObj) :=
  let t := (acc.2.2 c).ctype
  (aupdate t c acc.1, compsAdd acc.2.1 t e, initEntity acc.2.2 sid c e)

/-- `Scene.create_entity(*components)`: allocate a fresh entity id, give it
a component dict built from the components, register it in both indexes
and initialise every component's back-references. -/
def create_entity (s : Scene) (cs : List Nat) : Scene × Nat :=
  let e := s.nextId
  let r := cs.foldl (createStep s.sceneId e) ([], s.comps, s.heap)
  ({ s with entities := aupdate e r.1 s.entities, comps := r.2.1, heap := r.2.2,
            nextId := e + 1 }, e)

/-- `Scene.add_component(entity, component)`: `EntityDict.__getitem__`
raises `MissingEntity` for an unregistered entity; otherwise the component
is stored in both indexes and its back-references are set. -/
def add_component (s : Scene) (e c : Nat) : Except PyErr Scene :=
  match alookup e s.entities with
  | none => .error .missingEntity
  | some d =>
    let t := (s.heap c).ctype
    .ok { s with entities := aupdate e (aupdate t c d) s.entities,
                 comps := compsAdd s.comps t e,
                 heap := initEntity s.heap s.sceneId c e }

/-- `Scene.add_components(entity, *components)`: the loop body repeats
`add_component`'s statements for each component. -/
def add_components (s : Scene) (e : Nat) (cs : List Nat) : Except PyErr Scene :=
  cs.foldlM (fun s1 c => add_component s1 e c) s

/-- `Scene.get_component(entity, comp_cls)`. -/
def get_component (s : Scene) (e t : Nat) : Except PyErr Nat :=
  match alookup e s.entities with
  | none => .error .missingEntity
  | some d =>
    match alookup t d with
    | none => .error .missingComponent
    | some c => .ok c

/-- `Scene.get_components(entity, *comp_classes)`: look the entity's dict
up once, then collect the component of each requested type in order,
raising `MissingComponent` at the first absent type. -/
def get_components (s : Scene) (e : Nat) (ts : List Nat) : Except PyErr (List Nat) :=
  match alookup e s.entities with
  | none => .error .missingEntity
  | some d =>
    ts.mapM (fun t =>
      match alookup t d with
      | none => Except.error PyErr.missingComponent
      | some c => Except.ok c)

/-- `Scene.has_component(entity, comp_cls)`. -/
def has_component (s : Scene) (e t : Nat) : Except PyErr Bool :=
  match alookup e s.entities with
  | none => .error .missingEntity
  | some d => .ok (alookup t d).isSome

/-- `EntityDict.__getitem__`: `MissingEntity` (not a `KeyError`) for an
unregistered entity id. -/
def entityDictGet (s : Scene) (e : Nat) : Except PyErr (List (Nat × Nat)) :=
  match alookup e s.entities with
  | none => .error .missingEntity
  | some d => .ok d

/-- Plain `dict.__getitem__` on a per-entity component dict: `KeyError`
when the type is absent. -/
def dictGet (d : List (Nat × Nat)) (t : Nat) : Except PyErr Nat :=
  match alookup t d with
  | none => .error .keyError
  | some c => .ok c

/-- The `except KeyError: return None` clause of `try_component`: only a
`KeyError` is converted to `None`; every other exception propagates. -/
def catchKeyError {α : Type} (r : Except PyErr α) : Except PyErr (Option α) :=
  match r with
  | .ok v => .ok (some v)
  | .error .keyError => .ok none
  | .error e => .error e

/-- `Scene.try_component(entity, comp_cls)`: the body evaluates
`self._entities[entity][comp_cls]` under a `try` that catches only
`KeyError`. -/
def try_component (s : Scene) (e t : Nat) : Except PyErr (Option Nat) :=
  catchKeyError (entityDictGet s e >>= fun d => dictGet d t)

/-- `Scene.try_components(entity, *comp_classes)`: the entity lookup is
outside any `try`; absent types map to `None`. -/
def try_components (s : Scene) (e : Nat) (ts : List Nat) :
    Except PyErr (List (Option Nat)) :=
  entityDictGet s e >>= fun d => .ok (ts.map (fun t => alookup t d))

/-- `Scene.del_component(entity, comp_cls)`: `MissingComponent` when the
entity lacks the type; otherwise pop it from the entity index, remove the
entity from the type's set, and clear the component's `entity` attribute
(the `scene` attribute is not touched by the code). -/
def del_component (s : Scene) (e t : Nat) : Except PyErr Scene :=
  match alookup e s.entities with
  | none => .error .missingEntity
  | some d =>
    match alookup t d with
    | none => .error .missingComponent
    | some c =>
      (setRemove e (s.comps t)).map (fun l =>
        { s with entities := aupdate e (aerase t d) s.entities,
                 comps := fun T => if T = t then l else s.comps T,
                 heap := fun i => if i = c then { s.heap i with entity := none }
                                  else s.heap i })

/-- The `del_entity` loop: remove the entity from the type-index set of
every component type it holds. -/
def delEntityComps (e : Nat) (ts : List Nat) (cm : Nat → List Nat) :
    Except PyErr (Nat → List Nat) :=
  ts.foldlM (fun c t => (setRemove e (c t)).map (fun l T => if T = t then l else c T)) cm

/-- `Scene.del_entity(entity)`: `MissingEntity` (from
`EntityDict.__getitem__`, before any mutation) when unregistered;
otherwise drop the entity from every type set and from the entity index.
Component back-references are not touched. -/
def del_entity (s : Scene) (e : Nat) : Except PyErr Scene :=
  match alookup e s.entities with
  | none => .error .missingEntity
  | some d =>
    (delEntityComps e (d.map Prod.fst) s.comps).map (fun cm =>
      { s with entities := aerase e s.entities, comps := cm })

/-- `set.intersection(*sets)` over a non-empty list of sets (the empty
case is unreachable behind the `if not comp_classes` guard). -/
def interAll : List (List Nat) → List Nat
  | [] => []
  | l :: ls => ls.foldl (fun acc m => acc.filter (fun x => x ∈ m)) l

/-- `Scene.get_entities_with(*comp_classes)`, with the lazily yielded
per-entity component generator realised as a list: entry `t` holds
`alookup t d`, where `none` models the `KeyError` the generator would
raise for an absent type (never hit for yielded entities). -/
def get_entities_with (s : Scene) (ts : List Nat) : List (Nat × List (Option Nat)) :=
  if ts = [] then []
  else
    let es := interAll (ts.map s.comps)
    s.entities.filterMap (fun p =>
      if p.1 ∈ es then some (p.1, ts.map (fun t => alookup t p.2)) else none)

/-- `bisect.insort` on the bucket list keyed by priority: insert to the
right of equal keys, keeping ascending order. -/
def insortBucket (x : Int × List (Nat × Nat)) :
    List (Int × List (Nat × Nat)) → List (Int × List (Nat × Nat))
  | [] => [x]
  | y :: ys => if x.1 < y.1 then x :: y :: ys else y :: insortBucket x ys

/-- `next(sys for prio, sys in self._systems if prio == priority)` followed
by `system_dict[type(system)] = system`: update the first bucket with the
given priority in place (a bucket exists whenever the priority is in
`_priorities`). -/
def bucketUpdate (p : Int) (t a : Nat) :
    List (Int × List (Nat × Nat)) → List (Int × List (Nat × Nat))
  | [] => []
  | (q, d) :: rest =>
    if q = p then (q, aupdate t a d) :: rest else (q, d) :: bucketUpdate p t a rest

/-- `Scene.add_system(system, priority=0)` for a system of type `t` with
object id `a`. -/
def add_system (s : Scene) (t a : Nat) (p : Int) : Scene :=
  if p ∈ s.priorities then
    { s with systems := bucketUpdate p t a s.systems }
  else
    { s with priorities := p :: s.priorities,
             systems := insortBucket (p, [(t, a)]) s.systems }

/-- The `add_systems` loop: `prev` is the value held by the local variable
`priority` from earlier iterations; an entry without a priority reads that
variable, raising `UnboundLocalError` when no iteration has assigned it. -/
def addSystemsGo (s : Scene) (prev : Option Int) :
    List (Nat × Nat × Option Int) → Except PyErr Scene
  | [] => .ok s
  | (t, a, po) :: rest =>
    match po with
    | some p => addSystemsGo (add_system s t a p) (some p) rest
    | none =>
      match prev with
      | none => .error .unboundLocal
      | some p => addSystemsGo (add_system s t a p) (some p) rest

/-- `Scene.add_systems(systems)`: entries are `(type, system id, optional
priority)` triples standing for the `(system[, priority])` tuples. -/
def add_systems (s : Scene) (entries : List (Nat × Nat × Option Int)) :
    Except PyErr Scene :=
  addSystemsGo s none entries

/-- The `for priority, systems in self._systems: if system_cls in systems:
break` search: the priority value of the first bucket containing the
system type. -/
def findPriority (t : Nat) : List (Int × List (Nat × Nat)) → Option Int
  | [] => none
  | (p, d) :: rest => if (alookup t d).isSome then some p else findPriority t rest

/-- Python list indexing: negative indices count from the end;
out-of-range indices raise `IndexError` (modelled as `none`). -/
def pyIndex (n : Nat) (i : Int) : Option Nat :=
  let j := if i < 0 then i + (n : Int) else i
  if 0 ≤ j ∧ j < (n : Int) then some j.toNat else none

/-- `Scene.del_system(system_cls)`: after the search loop,
`del self._systems[priority][1][system_cls]` subscripts the bucket LIST
with the found priority VALUE, then deletes the type from the dict of
whatever bucket sits at that list position. -/
def del_system (s : Scene) (t : Nat) : Except PyErr Scene :=
  match findPriority t s.systems with
  | none => .error .missingSystem
  | some p =>
    match pyIndex s.systems.length p with
    | none => .error .indexError
    | some i =>
      match s.systems[i]? with
      | none => .error .indexError
      | some (q, d) =>
        match alookup t d with
        | none => .error .keyError
        | some _ => .ok { s with systems := s.systems.set i (q, aerase t d) }

/-- `Scene.update(*args)`: the sequence of system object ids whose
`update` method is invoked, in invocation order —
`chain.from_iterable(bucket dict values for buckets in reversed(_systems))`. -/
def updateRun (s : Scene) : List Nat :=
  (s.systems.reverse.map (fun b => b.2.map Prod.snd)).flatten

/-- The priority of the bucket each invoked system belongs to, in
invocation order. -/
def updateRunPriorities (s : Scene) : List Int :=
  (s.systems.reverse.map (fun b => b.2.map (fun _ => b.1))).flatten

/-- State of the `Singleton` metaclass: the `_instances` cache (class tag
to instance object id), a heap recording each constructed instance's
state, and a fresh object-id counter. -/
structure SingState where
  instances : List (Nat × Nat)
  objs : Nat → Option (List Nat)
  nextObj : Nat

/-- `Singleton.__call__(cls, *args, **kwargs)`: construct and cache on the
first call for `cls`, return the cached instance (ignoring the arguments)
afterwards.  A freshly constructed instance's state is initialised from
the arguments. -/
def singletonCall (st : SingState) (cls : Nat) (args : List Nat) : SingState × Nat :=
  match alookup cls st.instances with
  | some inst => (st, inst)
  | none =>
    let inst := st.nextObj
    ({ instances := aupdate cls inst st.instances,
       objs := fun i => if i = inst then some args else st.objs i,
       nextObj := inst + 1 }, inst)

/-- Mutation of a singleton instance's state through a reference `i`. -/
def mutateObj (st : SingState) (i : Nat) (v : List Nat) : SingState :=
  { st with objs := fun j => if j = i then some v else st.objs j }

/-- Referential integrity between the two indexes: a component of type `T`
is stored under entity `e` in the entity index iff `e` is in the type
index's entity set for `T`. -/
def RefInv (s : Scene) : Prop :=
  ∀ e T, (∃ d, alookup e s.entities = some d ∧ (alookup T d).isSome) ↔ e ∈ s.comps T

/-- Structural invariants of a reachable scene: dict keys are unique at
both levels, registered entity ids are below the fresh-id counter, the
type-index sets are duplicate-free, and referential integrity holds. -/
def SceneInv (s : Scene) : Prop :=
  (s.entities.map Prod.fst).Nodup ∧
  (∀ p ∈ s.entities, (p.2.map Prod.fst).Nodup) ∧
  (∀ p ∈ s.entities, p.1 < s.nextId) ∧
  (∀ T, (s.comps T).Nodup) ∧
  RefInv s

/-- Invariant of the system schedule: the bucket list is strictly sorted
by priority and `_priorities` holds exactly the bucket keys. -/
def SysInv (s : Scene) : Prop :=
  (s.systems.map Prod.fst).Sorted (fun a b => a < b) ∧
  (∀ p : Int, p ∈ s.priorities ↔ p ∈ s.systems.map Prod.fst)

/-- A component heap in which the component with id `i` has concrete type
`i`; used when instantiating theorems on concrete scenes. -/
def unitHeap : Nat → CompObj := fun i => { ctype := i }

/-- A component heap in which the component with id `i` has concrete type
`i % 10`, so that several component objects share a type. -/
def demoHeap : Nat → CompObj := fun i => { ctype := i % 10 }

/-- The three-entity scene of the spec's `get_entities_with` vignette,
over `demoHeap`: entity 0 holds a type-1 component, entity 1 a type-2
component, entity 2 components of both types. -/
def demoScene : Scene :=
  (create_entity (create_entity (create_entity (Scene.mkInit demoHeap) [1]).1
    [2]).1 [11, 12]).1

/-! ### Association-list and set lemmas -/

theorem alookup_update_self {κ α : Type} [DecidableEq κ] (k : κ) (v : α)
    (l : List (κ × α)) : alookup k (aupdate k v l) = some v := by
  induction l with
  | nil => simp [aupdate, alookup]
  | cons p rest ih =>
    obtain ⟨k1, v1⟩ := p
    by_cases h : k1 = k
    · simp [aupdate, h, alookup]
    · simp [aupdate, h, alookup, ih]

theorem alookup_update_ne {κ α : Type} [DecidableEq κ] {k k1 : κ} (v : α)
    (l : List (κ × α)) (hne : k1 ≠ k) :
    alookup k1 (aupdate k v l) = alookup k1 l := by
  induction l with
  | nil => simp [aupdate, alookup, Ne.symm hne]
  | cons p rest ih =>
    obtain ⟨k2, v2⟩ := p
    by_cases h : k2 = k
    · subst h
      simp [aupdate, alookup, Ne.symm hne]
    · simp [aupdate, h, alookup, ih]

theorem alookup_erase_self {κ α : Type} [DecidableEq κ] (k : κ) (l : List (κ × α)) :
    alookup k (aerase k l) = none := by
  induction l with
  | nil => simp [aerase, alookup]
  | cons p rest ih =>
    obtain ⟨k1, v1⟩ := p
    by_cases h : k1 = k
    · simpa [aerase, h] using ih
    · simpa [aerase, h, alookup] using ih

theorem alookup_erase_ne {κ α : Type} [DecidableEq κ] {k k1 : κ} (l : List (κ × α))
    (hne : k1 ≠ k) : alookup k1 (aerase k l) = alookup k1 l := by
  induction l with
  | nil => simp [aerase]
  | cons p rest ih =>
    obtain ⟨k2, v2⟩ := p
    by_cases h : k2 = k
    · subst h
      have he : aerase k2 ((k2, v2) :: rest) = aerase k2 rest := by simp [aerase]
      rw [he, ih]
      simp [alookup, Ne.symm hne]
    · have he : aerase k ((k2, v2) :: rest) = (k2, v2) :: aerase k rest := by
        simp [aerase, h]
      rw [he]
      simp [alookup, ih]

theorem alookup_eq_none_iff {κ α : Type} [DecidableEq κ] (k : κ) (l : List (κ × α)) :
    alookup k l = none ↔ k ∉ l.map Prod.fst := by
  induction l with
  | nil => simp [alookup]
  | cons p rest ih =>
    obtain ⟨k1, v1⟩ := p
    by_cases h : k1 = k
    · simp [alookup, h]
    · simp [alookup, h, ih, Ne.symm h]

theorem alookup_isSome_iff {κ α : Type} [DecidableEq κ] (k : κ) (l : List (κ × α)) :
    (alookup k l).isSome = true ↔ k ∈ l.map Prod.fst := by
  rcases hl : alookup k l with _ | v
  · simpa [Option.isSome] using (alookup_eq_none_iff k l).mp hl
  · simp only [Option.isSome, true_iff]
    by_contra hmem
    rw [(alookup_eq_none_iff k l).mpr hmem] at hl
    exact Option.noConfusion hl

theorem mem_of_alookup_eq_some {κ α : Type} [DecidableEq κ] {k : κ} {v : α}
    {l : List (κ × α)} (h : alookup k l = some v) : (k, v) ∈ l := by
  induction l with
  | nil => simp [alookup] at h
  | cons p rest ih =>
    obtain ⟨k1, v1⟩ := p
    by_cases hk : k1 = k
    · subst hk
      simp [alookup] at h
      simp [h]
    · simp [alookup, hk] at h
      exact List.mem_cons_of_mem _ (ih h)

theorem alookup_of_mem_of_nodup {κ α : Type} [DecidableEq κ] {k : κ} {v : α}
    {l : List (κ × α)} (hnd : (l.map Prod.fst).Nodup) (hmem : (k, v) ∈ l) :
    alookup k l = some v := by
  induction l with
  | nil => simp at hmem
  | cons p rest ih =>
    obtain ⟨k1, v1⟩ := p
    simp only [List.map_cons, List.nodup_cons] at hnd
    rcases List.mem_cons.mp hmem with h | h
    · obtain ⟨hk, hv⟩ := Prod.mk.injEq .. ▸ h
      simp [alookup, hk.symm, hv]
    · have hk : k1 ≠ k := by
        rintro rfl
        exact hnd.1 (List.mem_map.mpr ⟨(k1, v), h, rfl⟩)
      simp [alookup, hk, ih hnd.2 h]

theorem mem_keys_update {κ α : Type} [DecidableEq κ] (k k1 : κ) (v : α)
    (l : List (κ × α)) :
    k1 ∈ (aupdate k v l).map Prod.fst ↔ k1 = k ∨ k1 ∈ l.map Prod.fst := by
  induction l with
  | nil => simp [aupdate]
  | cons p rest ih =>
    obtain ⟨k2, v2⟩ := p
    by_cases h : k2 = k
    · subst h
      simp [aupdate]
    · simp [aupdate, h, ih]
      tauto

theorem nodup_keys_update {κ α : Type} [DecidableEq κ] (k : κ) (v : α)
    {l : List (κ × α)} (hnd : (l.map Prod.fst).Nodup) :
    ((aupdate k v l).map Prod.fst).Nodup := by
  induction l with
  | nil => simp [aupdate]
  | cons p rest ih =>
    obtain ⟨k2, v2⟩ := p
    simp only [List.map_cons, List.nodup_cons] at hnd
    by_cases h : k2 = k
    · subst h
      have he : aupdate k2 v ((k2, v2) :: rest) = (k2, v) :: rest := by
        simp [aupdate]
      rw [he, List.map_cons, List.nodup_cons]
      exact ⟨hnd.1, hnd.2⟩
    · have he : aupdate k v ((k2, v2) :: rest) = (k2, v2) :: aupdate k v rest := by
        simp [aupdate, h]
      rw [he, List.map_cons, List.nodup_cons]
      refine ⟨fun hmem => ?_, ih hnd.2⟩
      rcases (mem_keys_update k k2 v rest).mp hmem with rfl | hmem2
      · exact h rfl
      · exact hnd.1 hmem2

theorem mem_keys_erase {κ α : Type} [DecidableEq κ] (k k1 : κ) (l : List (κ × α)) :
    k1 ∈ (aerase k l).map Prod.fst ↔ k1 ∈ l.map Prod.fst ∧ k1 ≠ k := by
  constructor
  · intro h
    obtain ⟨p, hp, rfl⟩ := List.mem_map.mp h
    have hf := List.mem_filter.mp hp
    exact ⟨List.mem_map.mpr ⟨p, hf.1, rfl⟩, by simpa using hf.2⟩
  · rintro ⟨hmem, hne⟩
    obtain ⟨p, hp, rfl⟩ := List.mem_map.mp hmem
    exact List.mem_map.mpr ⟨p, List.mem_filter.mpr ⟨hp, by simpa using hne⟩, rfl⟩

theorem nodup_keys_erase {κ α : Type} [DecidableEq κ] (k : κ) {l : List (κ × α)}
    (hnd : (l.map Prod.fst).Nodup) : ((aerase k l).map Prod.fst).Nodup :=
  hnd.sublist ((List.filter_sublist l).map Prod.fst)

theorem mem_setAdd (x e : Nat) (l : List Nat) :
    x ∈ setAdd e l ↔ x = e ∨ x ∈ l := by
  by_cases h : e ∈ l
  · simp only [setAdd, if_pos h]
    constructor
    · exact Or.inr
    · rintro (rfl | hx)
      · exact h
      · exact hx
  · simp [setAdd, h]

theorem nodup_setAdd (e : Nat) {l : List Nat} (hnd : l.Nodup) :
    (setAdd e l).Nodup := by
  by_cases h : e ∈ l
  · simpa [setAdd, if_pos h] using hnd
  · simp only [setAdd, if_neg h, List.nodup_cons]
    exact ⟨h, hnd⟩

theorem setRemove_eq_ok {e : Nat} {l : List Nat} (h : e ∈ l) :
    setRemove e l = .ok (l.filter (fun x => x ≠ e)) := by
  simp [setRemove, if_pos h]

theorem mem_filter_ne (x e : Nat) (l : List Nat) :
    x ∈ l.filter (fun y => y ≠ e) ↔ x ∈ l ∧ x ≠ e := by
  simp [List.mem_filter]

/-! ### System-schedule lemmas -/

theorem self_mem_update {κ α : Type} [DecidableEq κ] (k : κ) (v : α)
    (l : List (κ × α)) : (k, v) ∈ aupdate k v l := by
  induction l with
  | nil => simp [aupdate]
  | cons p rest ih =>
    obtain ⟨k1, v1⟩ := p
    by_cases h : k1 = k
    · simp [aupdate, h]
    · simp only [aupdate, if_neg h]
      exact List.mem_cons_of_mem _ ih

theorem mem_insortBucket (x y : Int × List (Nat × Nat))
    (l : List (Int × List (Nat × Nat))) :
    y ∈ insortBucket x l ↔ y = x ∨ y ∈ l := by
  induction l with
  | nil => simp [insortBucket]
  | cons z zs ih =>
    by_cases h : x.1 < z.1
    · simp [insortBucket, h]
    · simp [insortBucket, h, ih]
      tauto

theorem mem_keys_insortBucket (x : Int × List (Nat × Nat)) (q : Int)
    (l : List (Int × List (Nat × Nat))) :
    q ∈ (insortBucket x l).map Prod.fst ↔ q = x.1 ∨ q ∈ l.map Prod.fst := by
  constructor
  · intro h
    obtain ⟨p, hp, rfl⟩ := List.mem_map.mp h
    rcases (mem_insortBucket x p l).mp hp with rfl | hp2
    · exact Or.inl rfl
    · exact Or.inr (List.mem_map.mpr ⟨p, hp2, rfl⟩)
  · rintro (rfl | h)
    · exact List.mem_map.mpr ⟨x, (mem_insortBucket x x l).mpr (Or.inl rfl), rfl⟩
    · obtain ⟨p, hp, rfl⟩ := List.mem_map.mp h
      exact List.mem_map.mpr ⟨p, (mem_insortBucket x p l).mpr (Or.inr hp), rfl⟩

theorem sorted_keys_insortBucket (x : Int × List (Nat × Nat))
    {l : List (Int × List (Nat × Nat))}
    (hs : (l.map Prod.fst).Sorted (fun a b => a < b))
    (hx : x.1 ∉ l.map Prod.fst) :
    ((insortBucket x l).map Prod.fst).Sorted (fun a b => a < b) := by
  induction l with
  | nil => simp [insortBucket]
  | cons z zs ih =>
    simp only [List.map_cons, List.sorted_cons] at hs
    simp only [List.map_cons, List.mem_cons, not_or] at hx
    by_cases h : x.1 < z.1
    · simp only [insortBucket, if_pos h, List.map_cons, List.sorted_cons]
      refine ⟨fun b hb => ?_, hs⟩
      rcases List.mem_cons.mp hb with rfl | hb2
      · exact h
      · exact lt_trans h (hs.1 b hb2)
    · have hgt : z.1 < x.1 := by
        rcases lt_trichotomy x.1 z.1 with hlt | heq | hgt
        · exact absurd hlt h
        · exact absurd heq hx.1
        · exact hgt
      simp only [insortBucket, if_neg h, List.map_cons, List.sorted_cons]
      refine ⟨fun b hb => ?_, ih hs.2 hx.2⟩
      rcases (mem_keys_insortBucket x b zs).mp hb with rfl | hb2
      · exact hgt
      · exact hs.1 b hb2

theorem keys_bucketUpdate (p : Int) (t a : Nat)
    (l : List (Int × List (Nat × Nat))) :
    (bucketUpdate p t a l).map Prod.fst = l.map Prod.fst := by
  induction l with
  | nil => simp [bucketUpdate]
  | cons z zs ih =>
    obtain ⟨q, d⟩ := z
    by_cases h : q = p
    · simp [bucketUpdate, h]
    · simp [bucketUpdate, h, ih]

theorem sysInv_mkInit (h : Nat → CompObj) : SysInv (Scene.mkInit h) := by
  constructor
  · simp [Scene.mkInit]
  · intro p
    simp [Scene.mkInit]

theorem sysInv_add (s : Scene) (hinv : SysInv s) (t a : Nat) (p : Int) :
    SysInv (add_system s t a p) := by
  obtain ⟨hsort, hpr⟩ := hinv
  by_cases hp : p ∈ s.priorities
  · simp only [add_system, if_pos hp]
    constructor
    · simpa [keys_bucketUpdate] using hsort
    · intro q
      simpa [keys_bucketUpdate] using hpr q
  · simp only [add_system, if_neg hp]
    constructor
    · exact sorted_keys_insortBucket (p, [(t, a)]) hsort
        (fun hmem => hp ((hpr p).mpr hmem))
    · intro q
      simp only [List.mem_cons, mem_keys_insortBucket]
      rw [hpr q]

/-- Membership of a system object in the bucket of a given priority. -/
def InBucket (s : Scene) (p : Int) (a : Nat) : Prop :=
  ∃ d, (p, d) ∈ s.systems ∧ a ∈ d.map Prod.snd

theorem bucketUpdate_mem {p : Int} (t a : Nat)
    {l : List (Int × List (Nat × Nat))} (hp : p ∈ l.map Prod.fst) :
    ∃ d, (p, d) ∈ bucketUpdate p t a l ∧ a ∈ d.map Prod.snd := by
  induction l with
  | nil => simp at hp
  | cons z zs ih =>
    obtain ⟨q, d⟩ := z
    by_cases h : q = p
    · subst h
      refine ⟨aupdate t a d, ?_, ?_⟩
      · simp [bucketUpdate]
      · exact List.mem_map.mpr ⟨(t, a), self_mem_update t a d, rfl⟩
    · have hp2 : p ∈ zs.map Prod.fst := by
        rcases List.mem_cons.mp hp with heq | hmem
        · exact absurd heq.symm h
        · exact hmem
      obtain ⟨d1, hd1, ha⟩ := ih hp2
      exact ⟨d1, by simp [bucketUpdate, h, hd1], ha⟩

theorem add_system_mem (s : Scene) (hinv : SysInv s) (t a : Nat) (p : Int) :
    InBucket (add_system s t a p) p a := by
  by_cases hp : p ∈ s.priorities
  · simp only [add_system, if_pos hp]
    obtain ⟨d, hd, ha⟩ := bucketUpdate_mem t a ((hinv.2 p).mp hp)
    exact ⟨d, hd, ha⟩
  · simp only [add_system, if_neg hp]
    refine ⟨[(t, a)], ?_, by simp⟩
    exact (mem_insortBucket _ _ _).mpr (Or.inl rfl)

theorem bucketUpdate_mem_preserved {p q : Int} (t a : Nat)
    {l : List (Int × List (Nat × Nat))} {d : List (Nat × Nat)}
    (hne : q ≠ p) (hmem : (q, d) ∈ l) : (q, d) ∈ bucketUpdate p t a l := by
  induction l with
  | nil => simp at hmem
  | cons z zs ih =>
    obtain ⟨r, e⟩ := z
    by_cases h : r = p
    · subst h
      simp only [bucketUpdate, if_pos rfl]
      rcases List.mem_cons.mp hmem with heq | hmem2
      · exact absurd (congrArg Prod.fst heq) hne
      · exact List.mem_cons_of_mem _ hmem2
    · simp only [bucketUpdate, if_neg h]
      rcases List.mem_cons.mp hmem with heq | hmem2
      · exact heq ▸ List.mem_cons_self _ _
      · exact List.mem_cons_of_mem _ (ih hmem2)

theorem add_system_mem_preserved (s : Scene) {p q : Int} {a : Nat} (t b : Nat)
    (hne : q ≠ p) (hq : InBucket s q a) : InBucket (add_system s t b p) q a := by
  obtain ⟨d, hd, ha⟩ := hq
  by_cases hp : p ∈ s.priorities
  · simp only [add_system, if_pos hp]
    exact ⟨d, bucketUpdate_mem_preserved t b hne hd, ha⟩
  · simp only [add_system, if_neg hp]
    exact ⟨d, (mem_insortBucket _ _ _).mpr (Or.inr hd), ha⟩

theorem sorted_desc_split {l : List (Int × List (Nat × Nat))}
    {x y : Int × List (Nat × Nat)}
    (hs : (l.map Prod.fst).Sorted (fun a b => b < a))
    (hx : x ∈ l) (hy : y ∈ l) (hlt : y.1 < x.1) :
    ∃ l1 l2, l = l1 ++ x :: l2 ∧ y ∈ l2 := by
  induction l with
  | nil => simp at hx
  | cons z zs ih =>
    simp only [List.map_cons, List.sorted_cons] at hs
    rcases List.mem_cons.mp hx with rfl | hx2
    · refine ⟨[], zs, by simp, ?_⟩
      rcases List.mem_cons.mp hy with rfl | hy2
      · exact absurd hlt (lt_irrefl _)
      · exact hy2
    · have hy2 : y ∈ zs := by
        rcases List.mem_cons.mp hy with rfl | hy2
        · have : x.1 < y.1 := hs.1 x.1 (List.mem_map.mpr ⟨x, hx2, rfl⟩)
          exact absurd (lt_trans hlt this) (lt_irrefl _)
        · exact hy2
      obtain ⟨l1, l2, heq, hmem⟩ := ih hs.2 hx2 hy2
      exact ⟨z :: l1, l2, by simp [heq], hmem⟩

theorem mem_before_append {x y : Nat} {L R : List Nat} (hx : x ∈ L) (hy : y ∈ R) :
    ∃ i j : Nat, i < j ∧ (L ++ R)[i]? = some x ∧ (L ++ R)[j]? = some y := by
  obtain ⟨i, hi, hLi⟩ := List.mem_iff_getElem.mp hx
  obtain ⟨j, hj, hRj⟩ := List.mem_iff_getElem.mp hy
  refine ⟨i, L.length + j, by omega, ?_, ?_⟩
  · rw [List.getElem?_append]
    rw [if_pos hi, List.getElem?_eq_getElem hi, hLi]
  · rw [List.getElem?_append]
    rw [if_neg (by omega)]
    simp only [Nat.add_sub_cancel_left]
    rw [List.getElem?_eq_getElem hj, hRj]

theorem invoked_before (s : Scene)
    (hs : (s.systems.map Prod.fst).Sorted (fun a b => a < b))
    {pa pb : Int} {a b : Nat} (hab : pb < pa)
    (ha : InBucket s pa a) (hb : InBucket s pb b) :
    ∃ i j : Nat, i < j ∧ (updateRun s)[i]? = some a ∧ (updateRun s)[j]? = some b := by
  obtain ⟨da, hda, hain⟩ := ha
  obtain ⟨db, hdb, hbin⟩ := hb
  have hrs : (s.systems.reverse.map Prod.fst).Sorted (fun x y => y < x) := by
    rw [List.map_reverse]
    exact List.pairwise_reverse.mpr hs
  obtain ⟨l1, l2, heq, hmem⟩ :=
    sorted_desc_split hrs (List.mem_reverse.mpr hda) (List.mem_reverse.mpr hdb) hab
  have hrun : updateRun s
      = ((l1.map (fun p => p.2.map Prod.snd)).flatten ++ da.map Prod.snd)
        ++ (l2.map (fun p => p.2.map Prod.snd)).flatten := by
    rw [updateRun, heq]
    simp [List.flatten_append]
  rw [hrun]
  refine mem_before_append (List.mem_append_right _ hain) ?_
  exact List.mem_flatten.mpr ⟨db.map Prod.snd,
    List.mem_map.mpr ⟨(pb, db), hmem, rfl⟩, hbin⟩

/-- Claim C2: systems added with distinct priorities are invoked by
`Scene.update` with the higher priority value first, regardless of the
order of the two `add_system` calls, and `update` traverses the priority
buckets in strictly descending priority order. -/
theorem update_priority_order (s : Scene) (hinv : SysInv s)
    (ta tb a b : Nat) (pa pb : Int) (hp : pb < pa) :
    (∃ i j : Nat, i < j ∧
      (updateRun (add_system (add_system s ta a pa) tb b pb))[i]? = some a ∧
      (updateRun (add_system (add_system s ta a pa) tb b pb))[j]? = some b) ∧
    (∃ i j : Nat, i < j ∧
      (updateRun (add_system (add_system s tb b pb) ta a pa))[i]? = some a ∧
      (updateRun (add_system (add_system s tb b pb) ta a pa))[j]? = some b) ∧
    (((add_system (add_system s ta a pa) tb b pb).systems.reverse.map
        Prod.fst).Sorted (fun x y => y < x)) := by
  have hne : pb ≠ pa := ne_of_lt hp
  have hinv1 : SysInv (add_system s ta a pa) := sysInv_add s hinv ta a pa
  have hinv2 : SysInv (add_system (add_system s ta a pa) tb b pb) :=
    sysInv_add _ hinv1 tb b pb
  have hinv1b : SysInv (add_system s tb b pb) := sysInv_add s hinv tb b pb
  have hinv2b : SysInv (add_system (add_system s tb b pb) ta a pa) :=
    sysInv_add _ hinv1b ta a pa
  refine ⟨?_, ?_, ?_⟩
  · have hma : InBucket (add_system (add_system s ta a pa) tb b pb) pa a :=
      add_system_mem_preserved _ tb b (Ne.symm hne)
        (add_system_mem s hinv ta a pa)
    have hmb : InBucket (add_system (add_system s ta a pa) tb b pb) pb b :=
      add_system_mem _ hinv1 tb b pb
    exact invoked_before _ hinv2.1 hp hma hmb
  · have hmb : InBucket (add_system (add_system s tb b pb) ta a pa) pb b :=
      add_system_mem_preserved _ ta a hne (add_system_mem s hinv tb b pb)
    have hma : InBucket (add_system (add_system s tb b pb) ta a pa) pa a :=
      add_system_mem _ hinv1b ta a pa
    exact invoked_before _ hinv2b.1 hp hma hmb
  · rw [List.map_reverse]
    exact List.pairwise_reverse.mpr hinv2.1

/-- Witness for C2 at a concrete scene: priorities 10 and 0 on an empty
scene, both insertion orders. -/
theorem update_priority_order_witness :
    (0 : Int) < 10 ∧
    ((∃ i j : Nat, i < j ∧
      (updateRun (add_system (add_system (Scene.mkInit unitHeap) 1 101 10) 2 102 0))[i]?
        = some 101 ∧
      (updateRun (add_system (add_system (Scene.mkInit unitHeap) 1 101 10) 2 102 0))[j]?
        = some 102) ∧
    (∃ i j : Nat, i < j ∧
      (updateRun (add_system (add_system (Scene.mkInit unitHeap) 2 102 0) 1 101 10))[i]?
        = some 101 ∧
      (updateRun (add_system (add_system (Scene.mkInit unitHeap) 2 102 0) 1 101 10))[j]?
        = some 102) ∧
    (((add_system (add_system (Scene.mkInit unitHeap) 1 101 10) 2 102 0).systems.reverse.map
        Prod.fst).Sorted (fun x y => y < x))) :=
  ⟨by decide,
   update_priority_order (Scene.mkInit unitHeap) (sysInv_mkInit unitHeap)
     1 2 101 102 10 0 (by decide)⟩

/-- Claim C4 (code evaluation): `del_system` raises `MissingSystem` on an
empty schedule; with a single system scheduled at priority 10 it raises
`IndexError` instead of removing the system, because the found priority
value is used as a position in the bucket list; with the system at
priority 0 — where priority and position coincide — removal succeeds. -/
theorem del_system_uses_priority_as_index :
    exceptErr (del_system (Scene.mkInit unitHeap) 5) = some .missingSystem ∧
    exceptErr (del_system (add_system (Scene.mkInit unitHeap) 5 7 10) 5)
      = some .indexError ∧
    (del_system (add_system (Scene.mkInit unitHeap) 5 7 0) 5).map Scene.systems
      = .ok [(0, [])] := by
  refine ⟨rfl, rfl, rfl⟩

/-- Claim C5 (code evaluation): in `add_systems`, an entry without a
priority does not default to priority 0: as the first entry it raises
`UnboundLocalError` (the local `priority` was never assigned), and after
an entry with priority 5 it is scheduled at the stale priority 5. -/
theorem add_systems_no_priority_default :
    exceptErr (add_systems (Scene.mkInit unitHeap) [(5, 7, none)])
      = some .unboundLocal ∧
    (add_systems (Scene.mkInit unitHeap) [(3, 8, some 5), (4, 9, none)]).map
      Scene.systems = .ok [(5, [(3, 8), (4, 9)])] := by
  refine ⟨rfl, rfl⟩

/-! ### Singleton metaclass -/

/-- Claim C9: a second construction call for a class registered with the
`Singleton` metaclass returns the identical cached instance regardless of
the arguments and leaves the registry unchanged; the first call caches its
instance (a fresh object when the class was not yet cached), and a
mutation through one reference is visible through the other. -/
theorem singleton_call_contract (st : SingState) (cls : Nat) (a1 a2 : List Nat) :
    (singletonCall (singletonCall st cls a1).1 cls a2).2
      = (singletonCall st cls a1).2 ∧
    (singletonCall (singletonCall st cls a1).1 cls a2).1
      = (singletonCall st cls a1).1 ∧
    alookup cls (singletonCall st cls a1).1.instances
      = some (singletonCall st cls a1).2 ∧
    (alookup cls st.instances = none → (singletonCall st cls a1).2 = st.nextObj) ∧
    (∀ v : List Nat,
      (mutateObj (singletonCall (singletonCall st cls a1).1 cls a2).1
          (singletonCall st cls a1).2 v).objs
        (singletonCall (singletonCall st cls a1).1 cls a2).2 = some v) := by
  rcases h : alookup cls st.instances with _ | inst
  · have h1 : (singletonCall st cls a1)
        = ({ instances := aupdate cls st.nextObj st.instances,
             objs := fun i => if i = st.nextObj then some a1 else st.objs i,
             nextObj := st.nextObj + 1 }, st.nextObj) := by
      simp [singletonCall, h]
    have h2 : alookup cls (singletonCall st cls a1).1.instances
        = some st.nextObj := by
      rw [h1]
      exact alookup_update_self cls st.nextObj st.instances
    have h3 : singletonCall (singletonCall st cls a1).1 cls a2
        = ((singletonCall st cls a1).1, st.nextObj) := by
      rw [singletonCall, h2]
    refine ⟨?_, ?_, ?_, ?_, ?_⟩
    · rw [h3, h1]
    · rw [h3]
    · rw [h2, h1]
    · intro _
      rw [h1]
    · intro v
      rw [h3, h1]
      simp [mutateObj]
  · have h1 : (singletonCall st cls a1) = (st, inst) := by
      simp [singletonCall, h]
    have h3 : singletonCall (singletonCall st cls a1).1 cls a2 = (st, inst) := by
      rw [h1, singletonCall, h]
    refine ⟨?_, ?_, ?_, ?_, ?_⟩
    · rw [h3, h1]
    · rw [h3, h1]
    · rw [h1, h]
    · intro hc
      exact Option.noConfusion hc
    · intro v
      rw [h3, h1]
      simp [mutateObj]

/-- Witness for C9 on an empty registry: two calls for class 4 with
different arguments. -/
theorem singleton_call_contract_witness :
    (singletonCall (singletonCall ⟨[], fun _ => none, 0⟩ 4 [1, 2]).1 4 [9]).2
      = (singletonCall ⟨[], fun _ => none, 0⟩ 4 [1, 2]).2 ∧
    (singletonCall (singletonCall ⟨[], fun _ => none, 0⟩ 4 [1, 2]).1 4 [9]).1
      = (singletonCall ⟨[], fun _ => none, 0⟩ 4 [1, 2]).1 ∧
    alookup 4 (singletonCall ⟨[], fun _ => none, 0⟩ 4 [1, 2]).1.instances
      = some (singletonCall ⟨[], fun _ => none, 0⟩ 4 [1, 2]).2 ∧
    (alookup 4 (SingState.instances ⟨[], fun _ => none, 0⟩) = none →
      (singletonCall ⟨[], fun _ => none, 0⟩ 4 [1, 2]).2
        = SingState.nextObj ⟨[], fun _ => none, 0⟩) ∧
    (∀ v : List Nat,
      (mutateObj (singletonCall (singletonCall ⟨[], fun _ => none, 0⟩ 4 [1, 2]).1 4 [9]).1
          (singletonCall ⟨[], fun _ => none, 0⟩ 4 [1, 2]).2 v).objs
        (singletonCall (singletonCall ⟨[], fun _ => none, 0⟩ 4 [1, 2]).1 4 [9]).2
         = some v) :=
  singleton_call_contract ⟨[], fun _ => none, 0⟩ 4 [1, 2] [9]

/-! ### try_component / try_components -/

/-- Claim C10: for an unregistered entity id, `try_component` and
`try_components` raise `MissingEntity` (which the `except KeyError` clause
does not catch) rather than returning the `None` sentinel; on a registered
entity they return the per-type lookup results, with `None` exactly for
the absent types. -/
theorem try_component_entity_validity (s : Scene) (e t : Nat) (ts : List Nat) :
    (alookup e s.entities = none →
      try_component s e t = .error .missingEntity ∧
      try_components s e ts = .error .missingEntity) ∧
    (∀ d, alookup e s.entities = some d →
      try_component s e t = .ok (alookup t d) ∧
      try_components s e ts = .ok (ts.map (fun t1 => alookup t1 d))) := by
  constructor
  · intro h
    constructor
    · simp [try_component, entityDictGet, h, catchKeyError, Bind.bind, Except.bind]
    · simp [try_components, entityDictGet, h, Bind.bind, Except.bind]
  · intro d hd
    constructor
    · rcases ht : alookup t d with _ | c
      · simp [try_component, entityDictGet, hd, dictGet, ht, catchKeyError,
          Bind.bind, Except.bind]
      · simp [try_component, entityDictGet, hd, dictGet, ht, catchKeyError,
          Bind.bind, Except.bind]
    · simp [try_components, entityDictGet, hd, Bind.bind, Except.bind]

/-- Witness for C10: entity 0 is unregistered in a fresh scene; after
creating it with a type-1 component, `try_component` yields the component
for type 1 and `None` for the absent type 2. -/
theorem try_component_entity_validity_witness :
    (try_component (Scene.mkInit unitHeap) 0 1 = .error .missingEntity ∧
      try_components (Scene.mkInit unitHeap) 0 [1, 2] = .error .missingEntity) ∧
    (try_component (create_entity (Scene.mkInit unitHeap) [1]).1 0 1 = .ok (some 1) ∧
      try_components (create_entity (Scene.mkInit unitHeap) [1]).1 0 [1, 2]
        = .ok [some 1, none]) :=
  ⟨(try_component_entity_validity (Scene.mkInit unitHeap) 0 1 [1, 2]).1 rfl,
   ((try_component_entity_validity (create_entity (Scene.mkInit unitHeap) [1]).1
      0 1 [1, 2]).2 [(1, 1)] rfl)⟩

/-! ### get_entities_with -/

theorem mem_foldl_filter (e : Nat) (ls : List (List Nat)) :
    ∀ l : List Nat,
      (e ∈ ls.foldl (fun acc m => acc.filter (fun x => x ∈ m)) l ↔
        e ∈ l ∧ ∀ m ∈ ls, e ∈ m) := by
  induction ls with
  | nil => intro l; simp
  | cons m ms ih =>
    intro l
    simp only [List.foldl_cons]
    rw [ih]
    simp only [List.mem_filter, decide_eq_true_eq, List.mem_cons]
    constructor
    · rintro ⟨⟨hl, hm⟩, hall⟩
      refine ⟨hl, fun m1 hm1 => ?_⟩
      rcases hm1 with rfl | hm1
      · exact hm
      · exact hall m1 hm1
    · rintro ⟨hl, hall⟩
      exact ⟨⟨hl, hall m (Or.inl rfl)⟩, fun m1 hm1 => hall m1 (Or.inr hm1)⟩

theorem mem_interAll (e : Nat) {ts : List Nat} (cm : Nat → List Nat) (hts : ts ≠ []) :
    e ∈ interAll (ts.map cm) ↔ ∀ t ∈ ts, e ∈ cm t := by
  cases ts with
  | nil => exact absurd rfl hts
  | cons t ts1 =>
    simp only [List.map_cons, interAll]
    rw [mem_foldl_filter]
    constructor
    · rintro ⟨hl, hall⟩
      intro u hu
      rcases List.mem_cons.mp hu with rfl | hu
      · exact hl
      · exact hall (cm u) (List.mem_map.mpr ⟨u, hu, rfl⟩)
    · intro hall
      refine ⟨hall t (List.mem_cons_self t ts1), ?_⟩
      rintro m hm
      obtain ⟨u, hu, rfl⟩ := List.mem_map.mp hm
      exact hall u (List.mem_cons_of_mem _ hu)

theorem mem_get_entities_with {s : Scene} {ts : List Nat} (hts : ts ≠ [])
    (e : Nat) (cs : List (Option Nat)) :
    (e, cs) ∈ get_entities_with s ts ↔
      ∃ d, (e, d) ∈ s.entities ∧ e ∈ interAll (ts.map s.comps) ∧
        cs = ts.map (fun t => alookup t d) := by
  simp only [get_entities_with, if_neg hts]
  rw [List.mem_filterMap]
  constructor
  · rintro ⟨⟨e1, d⟩, hmem, hf⟩
    by_cases hin : e1 ∈ interAll (ts.map s.comps)
    · rw [if_pos hin] at hf
      have he : e1 = e ∧ (ts.map (fun t => alookup t d)) = cs := by
        have := Option.some.inj hf
        exact ⟨congrArg Prod.fst this, congrArg Prod.snd this⟩
      obtain ⟨rfl, rfl⟩ := he
      exact ⟨d, hmem, hin, rfl⟩
    · rw [if_neg hin] at hf
      exact Option.noConfusion hf
  · rintro ⟨d, hmem, hin, rfl⟩
    exact ⟨(e, d), hmem, by rw [if_pos hin]⟩

/-- Claim C1: for a non-empty list of component types, `get_entities_with`
yields exactly the set of entities that hold all of the requested types
(the intersection of the per-type entity sets), and each yielded entity is
paired with its components in the order of the requested types. -/
theorem get_entities_with_spec (s : Scene) (hinv : SceneInv s)
    (ts : List Nat) (hts : ts ≠ []) :
    (∀ e : Nat, e ∈ (get_entities_with s ts).map Prod.fst ↔
      ∃ d, alookup e s.entities = some d ∧
        ∀ t ∈ ts, (alookup t d).isSome = true) ∧
    (∀ (e : Nat) (cs : List (Option Nat)), (e, cs) ∈ get_entities_with s ts →
      ∃ d, alookup e s.entities = some d ∧
        cs = ts.map (fun t => alookup t d) ∧
        ∀ t ∈ ts, (alookup t d).isSome = true) := by
  obtain ⟨hnd, hinner, hfresh, hcnd, href⟩ := hinv
  have key : ∀ (e : Nat) (cs : List (Option Nat)), (e, cs) ∈ get_entities_with s ts →
      ∃ d, alookup e s.entities = some d ∧
        cs = ts.map (fun t => alookup t d) ∧
        ∀ t ∈ ts, (alookup t d).isSome = true := by
    intro e cs hmem
    obtain ⟨d, hmemd, hin, rfl⟩ := (mem_get_entities_with hts e cs).mp hmem
    have hl : alookup e s.entities = some d := alookup_of_mem_of_nodup hnd hmemd
    refine ⟨d, hl, rfl, fun t ht => ?_⟩
    have he : e ∈ s.comps t := (mem_interAll e s.comps hts).mp hin t ht
    obtain ⟨d1, hl1, hs1⟩ := (href e t).mpr he
    rw [hl] at hl1
    exact Option.some.inj hl1 ▸ hs1
  refine ⟨fun e => ⟨?_, ?_⟩, key⟩
  · intro hmem
    obtain ⟨⟨e1, cs⟩, hmem1, he⟩ := List.mem_map.mp hmem
    cases he
    exact (key e1 cs hmem1).imp (fun d hd => ⟨hd.1, hd.2.2⟩)
  · rintro ⟨d, hl, hall⟩
    have hin : e ∈ interAll (ts.map s.comps) := by
      rw [mem_interAll e s.comps hts]
      intro t ht
      exact (href e t).mp ⟨d, hl, hall t ht⟩
    have hmem : (e, ts.map (fun t => alookup t d)) ∈ get_entities_with s ts :=
      (mem_get_entities_with hts e _).mpr ⟨d, mem_of_alookup_eq_some hl, hin, rfl⟩
    exact List.mem_map.mpr ⟨(e, ts.map (fun t => alookup t d)), hmem, rfl⟩

/-! ### create_entity fold lemmas -/

theorem ctype_initEntity (h : Nat → CompObj) (sid c e i : Nat) :
    ((initEntity h sid c e) i).ctype = (h i).ctype := by
  by_cases hic : i = c
  · subst hic
    simp [initEntity]
  · simp [initEntity, hic]

theorem create_fold_fst (sid e : Nat) (g : Nat → Nat) (cs : List Nat) :
    ∀ (d0 : List (Nat × Nat)) (cm : Nat → List Nat) (h : Nat → CompObj),
      (∀ i, (h i).ctype = g i) →
      (cs.foldl (createStep sid e) (d0, cm, h)).1
        = cs.foldl (fun d c => aupdate (g c) c d) d0 := by
  induction cs with
  | nil =>
    intro d0 cm h _
    rfl
  | cons c cs1 ih =>
    intro d0 cm h hg
    have hstep : createStep sid e (d0, cm, h) c
        = (aupdate (g c) c d0, compsAdd cm (g c) e, initEntity h sid c e) := by
      simp [createStep, hg c]
    simp only [List.foldl_cons, hstep]
    exact ih (aupdate (g c) c d0) (compsAdd cm (g c) e) (initEntity h sid c e)
      (fun i => (ctype_initEntity h sid c e i).trans (hg i))

theorem create_fold_comps_mem (sid e : Nat) (g : Nat → Nat) (cs : List Nat) :
    ∀ (d0 : List (Nat × Nat)) (cm : Nat → List Nat) (h : Nat → CompObj),
      (∀ i, (h i).ctype = g i) →
      ∀ (x T : Nat),
        (x ∈ (cs.foldl (createStep sid e) (d0, cm, h)).2.1 T ↔
          x ∈ cm T ∨ (x = e ∧ T ∈ cs.map g)) := by
  induction cs with
  | nil =>
    intro d0 cm h _ x T
    simp
  | cons c cs1 ih =>
    intro d0 cm h hg x T
    have hstep : createStep sid e (d0, cm, h) c
        = (aupdate (g c) c d0, compsAdd cm (g c) e, initEntity h sid c e) := by
      simp [createStep, hg c]
    simp only [List.foldl_cons, hstep]
    rw [ih _ _ _ (fun i => (ctype_initEntity h sid c e i).trans (hg i)) x T]
    simp only [compsAdd, List.map_cons, List.mem_cons]
    by_cases hT : T = g c
    · rw [if_pos hT]
      rw [mem_setAdd]
      constructor
      · rintro ((rfl | hx) | ⟨rfl, hmem⟩)
        · exact Or.inr ⟨rfl, Or.inl hT⟩
        · exact Or.inl hx
        · exact Or.inr ⟨rfl, Or.inr hmem⟩
      · rintro (hx | ⟨rfl, _⟩)
        · exact Or.inl (Or.inr hx)
        · exact Or.inl (Or.inl rfl)
    · rw [if_neg hT]
      constructor
      · rintro (hx | ⟨rfl, hmem⟩)
        · exact Or.inl hx
        · exact Or.inr ⟨rfl, Or.inr hmem⟩
      · rintro (hx | ⟨rfl, rfl | hmem⟩)
        · exact Or.inl hx
        · exact absurd rfl hT
        · exact Or.inr ⟨rfl, hmem⟩

theorem create_fold_comps_nodup (sid e : Nat) (cs : List Nat) :
    ∀ (d0 : List (Nat × Nat)) (cm : Nat → List Nat) (h : Nat → CompObj),
      (∀ T, (cm T).Nodup) →
      ∀ T, ((cs.foldl (createStep sid e) (d0, cm, h)).2.1 T).Nodup := by
  induction cs with
  | nil =>
    intro d0 cm h hnd T
    exact hnd T
  | cons c cs1 ih =>
    intro d0 cm h hnd T
    simp only [List.foldl_cons]
    refine ih _ _ _ (fun T1 => ?_) T
    simp only [createStep, compsAdd]
    by_cases hT : T1 = (h c).ctype
    · rw [if_pos hT]
      exact nodup_setAdd e (hnd T1)
    · rw [if_neg hT]
      exact hnd T1

theorem mem_keys_foldl_aupdate (g : Nat → Nat) (cs : List Nat) :
    ∀ (d0 : List (Nat × Nat)) (T : Nat),
      (T ∈ (cs.foldl (fun d c => aupdate (g c) c d) d0).map Prod.fst ↔
        T ∈ d0.map Prod.fst ∨ T ∈ cs.map g) := by
  induction cs with
  | nil =>
    intro d0 T
    simp
  | cons c cs1 ih =>
    intro d0 T
    simp only [List.foldl_cons, List.map_cons, List.mem_cons]
    rw [ih (aupdate (g c) c d0) T, mem_keys_update]
    tauto

theorem nodup_keys_foldl_aupdate (g : Nat → Nat) (cs : List Nat) :
    ∀ d0 : List (Nat × Nat), (d0.map Prod.fst).Nodup →
      ((cs.foldl (fun d c => aupdate (g c) c d) d0).map Prod.fst).Nodup := by
  induction cs with
  | nil =>
    intro d0 hnd
    exact hnd
  | cons c cs1 ih =>
    intro d0 hnd
    exact ih (aupdate (g c) c d0) (nodup_keys_update (g c) c hnd)

theorem aupdate_append_of_not_mem {κ α : Type} [DecidableEq κ] {k : κ} (v : α)
    {l : List (κ × α)} (hk : k ∉ l.map Prod.fst) :
    aupdate k v l = l ++ [(k, v)] := by
  induction l with
  | nil => rfl
  | cons p rest ih =>
    obtain ⟨k1, v1⟩ := p
    simp only [List.map_cons, List.mem_cons, not_or] at hk
    simp only [aupdate, if_neg (Ne.symm hk.1), List.cons_append]
    rw [ih hk.2]

theorem foldl_aupdate_eq_append (g : Nat → Nat) (cs : List Nat) :
    ∀ d0 : List (Nat × Nat),
      (∀ c ∈ cs, g c ∉ d0.map Prod.fst) → (cs.map g).Nodup →
      cs.foldl (fun d c => aupdate (g c) c d) d0
        = d0 ++ cs.map (fun c => (g c, c)) := by
  induction cs with
  | nil =>
    intro d0 _ _
    simp
  | cons c cs1 ih =>
    intro d0 hdis hnd
    simp only [List.map_cons, List.nodup_cons] at hnd
    simp only [List.foldl_cons]
    rw [aupdate_append_of_not_mem c (hdis c (List.mem_cons_self c cs1))]
    rw [ih (d0 ++ [(g c, c)]) ?_ hnd.2]
    · simp
    · intro c1 hc1
      simp only [List.map_append, List.mem_append, List.map_cons, List.map_nil,
        List.mem_singleton, not_or]
      refine ⟨hdis c1 (List.mem_cons_of_mem c hc1), fun heq => ?_⟩
      exact hnd.1 (heq ▸ List.mem_map.mpr ⟨c1, hc1, rfl⟩)

theorem mapM_lookup_ok (d : List (Nat × Nat)) (g : Nat → Nat) (cs : List Nat) :
    (∀ c ∈ cs, alookup (g c) d = some c) →
      (cs.map g).mapM (fun t =>
        match alookup t d with
        | none => Except.error PyErr.missingComponent
        | some c => Except.ok c) = Except.ok cs := by
  induction cs with
  | nil =>
    intro _
    rfl
  | cons c cs1 ih =>
    intro hall
    rw [List.map_cons, List.mapM_cons, hall c (List.mem_cons_self c cs1),
      ih (fun c1 h1 => hall c1 (List.mem_cons_of_mem c h1))]
    rfl

/-- Claim C3: creating an entity from components of pairwise-distinct
concrete types and then asking `get_components` for those types, in the
same order, returns exactly the original component list. -/
theorem create_get_components_roundtrip (s : Scene) (cs : List Nat)
    (hnd : (cs.map (fun c => (s.heap c).ctype)).Nodup) :
    get_components (create_entity s cs).1 (create_entity s cs).2
      (cs.map (fun c => (s.heap c).ctype)) = .ok cs := by
  have hfst : (cs.foldl (createStep s.sceneId s.nextId) ([], s.comps, s.heap)).1
      = cs.foldl (fun d c => aupdate ((s.heap c).ctype) c d) [] :=
    create_fold_fst s.sceneId s.nextId (fun c => (s.heap c).ctype) cs
      [] s.comps s.heap (fun _ => rfl)
  have hd : cs.foldl (fun d c => aupdate ((s.heap c).ctype) c d) []
      = cs.map (fun c => ((s.heap c).ctype, c)) := by
    simpa using
      foldl_aupdate_eq_append (fun c => (s.heap c).ctype) cs [] (by simp) hnd
  have hkeys : ((cs.map (fun c => ((s.heap c).ctype, c))).map Prod.fst).Nodup := by
    rw [List.map_map]
    exact hnd
  have hlook : ∀ c ∈ cs,
      alookup ((s.heap c).ctype) (cs.map (fun c => ((s.heap c).ctype, c)))
        = some c := by
    intro c hc
    exact alookup_of_mem_of_nodup hkeys (List.mem_map.mpr ⟨c, hc, rfl⟩)
  have hent : alookup (create_entity s cs).2 (create_entity s cs).1.entities
      = some (cs.map (fun c => ((s.heap c).ctype, c))) := by
    simp only [create_entity]
    rw [alookup_update_self, hfst, hd]
  simp only [get_components, hent]
  exact mapM_lookup_ok _ (fun c => (s.heap c).ctype) cs hlook

/-- Witness for C3: two components of distinct types 1 and 2 on a fresh
scene round-trip through `create_entity` / `get_components`. -/
theorem create_get_components_roundtrip_witness :
    ([1, 2].map (fun c => ((Scene.mkInit unitHeap).heap c).ctype)).Nodup ∧
    get_components (create_entity (Scene.mkInit unitHeap) [1, 2]).1
      (create_entity (Scene.mkInit unitHeap) [1, 2]).2
      ([1, 2].map (fun c => ((Scene.mkInit unitHeap).heap c).ctype)) = .ok [1, 2] :=
  ⟨by decide,
   create_get_components_roundtrip (Scene.mkInit unitHeap) [1, 2] (by decide)⟩

/-! ### Scene invariant preservation -/

theorem mem_aupdate_pairs {κ α : Type} [DecidableEq κ] {p : κ × α} {k : κ} {v : α}
    {l : List (κ × α)} (h : p ∈ aupdate k v l) : p = (k, v) ∨ p ∈ l := by
  induction l with
  | nil => simpa [aupdate] using h
  | cons q rest ih =>
    obtain ⟨k1, v1⟩ := q
    by_cases hk : k1 = k
    · subst hk
      simp only [aupdate, if_pos rfl] at h
      rcases List.mem_cons.mp h with rfl | h2
      · exact Or.inl rfl
      · exact Or.inr (List.mem_cons_of_mem _ h2)
    · simp only [aupdate, if_neg hk] at h
      rcases List.mem_cons.mp h with rfl | h2
      · exact Or.inr (List.mem_cons_self _ _)
      · rcases ih h2 with h3 | h3
        · exact Or.inl h3
        · exact Or.inr (List.mem_cons_of_mem _ h3)

theorem sceneInv_mkInit (h : Nat → CompObj) : SceneInv (Scene.mkInit h) := by
  refine ⟨by simp [Scene.mkInit], by simp [Scene.mkInit], by simp [Scene.mkInit],
    fun T => by simp [Scene.mkInit], fun e T => ?_⟩
  simp [Scene.mkInit, alookup]

theorem sceneInv_create (s : Scene) (hinv : SceneInv s) (cs : List Nat) :
    SceneInv (create_entity s cs).1 := by
  obtain ⟨hnd, hinner, hfresh, hcnd, href⟩ := hinv
  have hfst := create_fold_fst s.sceneId s.nextId (fun c => (s.heap c).ctype) cs
    [] s.comps s.heap (fun _ => rfl)
  have hcm := create_fold_comps_mem s.sceneId s.nextId (fun c => (s.heap c).ctype) cs
    [] s.comps s.heap (fun _ => rfl)
  have hfre : alookup s.nextId s.entities = none := by
    rw [alookup_eq_none_iff]
    intro hmem
    obtain ⟨p, hp, he⟩ := List.mem_map.mp hmem
    exact absurd (he ▸ hfresh p hp) (lt_irrefl _)
  have hfre2 : s.nextId ∉ s.entities.map Prod.fst :=
    (alookup_eq_none_iff _ _).mp hfre
  have hDnd : (((cs.foldl (createStep s.sceneId s.nextId)
      ([], s.comps, s.heap)).1).map Prod.fst).Nodup := by
    rw [hfst]
    exact nodup_keys_foldl_aupdate _ cs [] (by simp)
  refine ⟨?_, ?_, ?_, ?_, ?_⟩
  · exact nodup_keys_update _ _ hnd
  · intro p hp
    rcases mem_aupdate_pairs hp with rfl | hp2
    · exact hDnd
    · exact hinner p hp2
  · intro p hp
    rcases mem_aupdate_pairs hp with rfl | hp2
    · exact Nat.lt_succ_self _
    · exact Nat.lt_succ_of_lt (hfresh p hp2)
  · exact create_fold_comps_nodup s.sceneId s.nextId cs [] s.comps s.heap hcnd
  · intro e1 T
    by_cases he1 : e1 = s.nextId
    · subst he1
      rw [show (create_entity s cs).1.comps = (cs.foldl (createStep s.sceneId s.nextId)
          ([], s.comps, s.heap)).2.1 from rfl]
      rw [hcm s.nextId T]
      have hnotin : s.nextId ∉ s.comps T := by
        intro hin
        obtain ⟨d1, hl1, _⟩ := (href s.nextId T).mpr hin
        rw [hfre] at hl1
        exact Option.noConfusion hl1
      have hlook : alookup s.nextId (create_entity s cs).1.entities
          = some (cs.foldl (createStep s.sceneId s.nextId) ([], s.comps, s.heap)).1 := by
        simp only [create_entity]
        exact alookup_update_self _ _ _
      constructor
      · rintro ⟨d, hdd, hsome⟩
        rw [hlook] at hdd
        have hd : d = (cs.foldl (createStep s.sceneId s.nextId) ([], s.comps, s.heap)).1 :=
          (Option.some.inj hdd).symm
        subst hd
        right
        refine ⟨rfl, ?_⟩
        have := (alookup_isSome_iff T _).mp hsome
        rw [hfst] at this
        rcases (mem_keys_foldl_aupdate _ cs [] T).mp this with habs | hgood
        · simp at habs
        · exact hgood
      · rintro (hin | ⟨_, hmemg⟩)
        · exact absurd hin hnotin
        · refine ⟨_, hlook, ?_⟩
          rw [alookup_isSome_iff, hfst, mem_keys_foldl_aupdate]
          exact Or.inr hmemg
    · have hlook : alookup e1 (create_entity s cs).1.entities
          = alookup e1 s.entities := by
        simp only [create_entity]
        exact alookup_update_ne _ _ he1
      rw [show (create_entity s cs).1.comps = (cs.foldl (createStep s.sceneId s.nextId)
          ([], s.comps, s.heap)).2.1 from rfl]
      rw [hcm e1 T]
      constructor
      · rintro ⟨d, hdd, hsome⟩
        rw [hlook] at hdd
        exact Or.inl ((href e1 T).mp ⟨d, hdd, hsome⟩)
      · rintro (hin | ⟨habs, _⟩)
        · obtain ⟨d, hdd, hsome⟩ := (href e1 T).mpr hin
          exact ⟨d, hlook ▸ hdd, hsome⟩
        · exact absurd habs he1

theorem sceneInv_add_component (s : Scene) (hinv : SceneInv s) (e c : Nat)
    {s1 : Scene} (h : add_component s e c = .ok s1) : SceneInv s1 := by
  obtain ⟨hnd, hinner, hfresh, hcnd, href⟩ := hinv
  rcases hd : alookup e s.entities with _ | d
  · rw [add_component, hd] at h
    exact Except.noConfusion h
  · rw [add_component, hd] at h
    have hs1 : { s with
        entities := aupdate e (aupdate ((s.heap c).ctype) c d) s.entities,
        comps := compsAdd s.comps ((s.heap c).ctype) e,
        heap := initEntity s.heap s.sceneId c e } = s1 := Except.ok.inj h
    subst hs1
    have hmemd := mem_of_alookup_eq_some hd
    refine ⟨nodup_keys_update _ _ hnd, ?_, ?_, ?_, ?_⟩
    · intro p hp
      rcases mem_aupdate_pairs hp with rfl | hp2
      · exact nodup_keys_update _ _ (hinner (e, d) hmemd)
      · exact hinner p hp2
    · intro p hp
      rcases mem_aupdate_pairs hp with rfl | hp2
      · exact hfresh (e, d) hmemd
      · exact hfresh p hp2
    · intro T
      simp only [compsAdd]
      by_cases hT : T = (s.heap c).ctype
      · rw [if_pos hT]
        exact nodup_setAdd e (hcnd T)
      · rw [if_neg hT]
        exact hcnd T
    · intro e1 T
      simp only [compsAdd]
      by_cases he1 : e1 = e
      · subst he1
        rw [show alookup e1 (aupdate e1 (aupdate ((s.heap c).ctype) c d) s.entities)
            = some (aupdate ((s.heap c).ctype) c d) from alookup_update_self _ _ _]
        by_cases hT : T = (s.heap c).ctype
        · rw [if_pos hT]
          constructor
          · intro _
            rw [mem_setAdd]
            exact Or.inl rfl
          · intro _
            refine ⟨_, rfl, ?_⟩
            rw [alookup_isSome_iff, mem_keys_update]
            exact Or.inl hT
        · rw [if_neg hT]
          constructor
          · rintro ⟨d1, hdd, hsome⟩
            have : d1 = aupdate ((s.heap c).ctype) c d := Option.some.inj hdd.symm
            subst this
            rw [alookup_isSome_iff, mem_keys_update] at hsome
            rcases hsome with habs | hmem2
            · exact absurd habs hT
            · exact (href e1 T).mp ⟨d, hd, (alookup_isSome_iff T d).mpr hmem2⟩
          · intro hin
            obtain ⟨d1, hdd, hsome⟩ := (href e1 T).mpr hin
            have : d1 = d := (Option.some.inj (hd.symm.trans hdd)).symm
            subst this
            refine ⟨_, rfl, ?_⟩
            rw [alookup_isSome_iff, mem_keys_update]
            exact Or.inr ((alookup_isSome_iff T d1).mp hsome)
      · rw [show alookup e1 (aupdate e (aupdate ((s.heap c).ctype) c d) s.entities)
            = alookup e1 s.entities from alookup_update_ne _ _ he1]
        by_cases hT : T = (s.heap c).ctype
        · rw [if_pos hT, mem_setAdd]
          rw [← href e1 T]
          constructor
          · exact fun hx => Or.inr hx
          · rintro (rfl | hx)
            · exact absurd rfl he1
            · exact hx
        · rw [if_neg hT]
          exact href e1 T

theorem sceneInv_add_components (s : Scene) (hinv : SceneInv s) (e : Nat)
    (cs : List Nat) {s1 : Scene} (h : add_components s e cs = .ok s1) :
    SceneInv s1 := by
  induction cs generalizing s with
  | nil =>
    have : s = s1 := Except.ok.inj h
    exact this ▸ hinv
  | cons c cs1 ih =>
    rw [add_components, List.foldlM_cons] at h
    rcases ha : add_component s e c with e1 | s2
    · rw [ha] at h
      exact Except.noConfusion h
    · rw [ha] at h
      simp only [Bind.bind, Except.bind] at h
      exact ih s2 (sceneInv_add_component s hinv e c ha) h

theorem setRemove_ok_inv {e : Nat} {l l1 : List Nat}
    (h : setRemove e l = .ok l1) : l1 = l.filter (fun x => x ≠ e) ∧ e ∈ l := by
  by_cases hm : e ∈ l
  · rw [setRemove, if_pos hm] at h
    exact ⟨(Except.ok.inj h).symm, hm⟩
  · rw [setRemove, if_neg hm] at h
    exact Except.noConfusion h

theorem sceneInv_del_component (s : Scene) (hinv : SceneInv s) (e t : Nat)
    {s1 : Scene} (h : del_component s e t = .ok s1) : SceneInv s1 := by
  obtain ⟨hnd, hinner, hfresh, hcnd, href⟩ := hinv
  rcases hd : alookup e s.entities with _ | d
  · rw [del_component, hd] at h
    exact Except.noConfusion h
  · rcases ht : alookup t d with _ | c
    · simp only [del_component, hd, ht] at h
      exact Except.noConfusion h
    · simp only [del_component, hd, ht] at h
      rcases hr : setRemove e (s.comps t) with e2 | l1
      · rw [hr] at h
        exact Except.noConfusion h
      · rw [hr] at h
        simp only [Except.map] at h
        obtain ⟨hl1, _⟩ := setRemove_ok_inv hr
        subst hl1
        have hs1 : { s with
            entities := aupdate e (aerase t d) s.entities,
            comps := fun T => if T = t then (s.comps t).filter (fun x => x ≠ e)
              else s.comps T,
            heap := fun i => if i = c then { s.heap i with entity := none }
              else s.heap i } = s1 := Except.ok.inj h
        subst hs1
        have hmemd := mem_of_alookup_eq_some hd
        refine ⟨nodup_keys_update _ _ hnd, ?_, ?_, ?_, ?_⟩
        · intro p hp
          rcases mem_aupdate_pairs hp with rfl | hp2
          · exact nodup_keys_erase t (hinner (e, d) hmemd)
          · exact hinner p hp2
        · intro p hp
          rcases mem_aupdate_pairs hp with rfl | hp2
          · exact hfresh (e, d) hmemd
          · exact hfresh p hp2
        · intro T
          dsimp only
          by_cases hT : T = t
          · rw [if_pos hT]
            exact (hcnd t).filter _
          · rw [if_neg hT]
            exact hcnd T
        · intro e1 T
          dsimp only
          by_cases he1 : e1 = e
          · subst he1
            rw [show alookup e1 (aupdate e1 (aerase t d) s.entities)
                = some (aerase t d) from alookup_update_self _ _ _]
            by_cases hT : T = t
            · subst hT
              rw [if_pos rfl]
              constructor
              · rintro ⟨d1, hdd, hsome⟩
                have : d1 = aerase T d := Option.some.inj hdd.symm
                subst this
                rw [alookup_erase_self] at hsome
                exact absurd hsome (by simp)
              · intro hin
                rw [mem_filter_ne] at hin
                exact absurd rfl hin.2
            · rw [if_neg hT]
              constructor
              · rintro ⟨d1, hdd, hsome⟩
                have : d1 = aerase t d := Option.some.inj hdd.symm
                subst this
                rw [alookup_erase_ne d hT] at hsome
                exact (href e1 T).mp ⟨d, hd, hsome⟩
              · intro hin
                obtain ⟨d1, hdd, hsome⟩ := (href e1 T).mpr hin
                have : d1 = d := (Option.some.inj (hd.symm.trans hdd)).symm
                subst this
                refine ⟨_, rfl, ?_⟩
                rw [alookup_erase_ne d1 hT]
                exact hsome
          · rw [show alookup e1 (aupdate e (aerase t d) s.entities)
                = alookup e1 s.entities from alookup_update_ne _ _ he1]
            by_cases hT : T = t
            · subst hT
              rw [if_pos rfl, mem_filter_ne]
              rw [← href e1 T]
              exact ⟨fun hx => ⟨hx, he1⟩, fun hx => hx.1⟩
            · rw [if_neg hT]
              exact href e1 T

theorem delEntityComps_spec (e : Nat) (ts : List Nat) :
    ∀ cm : Nat → List Nat, ts.Nodup → (∀ t ∈ ts, e ∈ cm t) →
      ∃ cm1, delEntityComps e ts cm = .ok cm1 ∧
        ∀ T, cm1 T = if T ∈ ts then (cm T).filter (fun x => x ≠ e) else cm T := by
  induction ts with
  | nil =>
    intro cm _ _
    exact ⟨cm, rfl, fun T => by simp⟩
  | cons t ts1 ih =>
    intro cm hnd hall
    simp only [List.nodup_cons] at hnd
    have hstep : delEntityComps e (t :: ts1) cm
        = delEntityComps e ts1 (fun T => if T = t
            then (cm t).filter (fun x => x ≠ e) else cm T) := by
      simp only [delEntityComps, List.foldlM_cons,
        setRemove_eq_ok (hall t (List.mem_cons_self t ts1)), Except.map,
        Bind.bind, Except.bind]
    have hall1 : ∀ u ∈ ts1, e ∈ (fun T => if T = t
        then (cm t).filter (fun x => x ≠ e) else cm T) u := by
      intro u hu
      have hut : u ≠ t := fun heq => hnd.1 (heq ▸ hu)
      simp only [if_neg hut]
      exact hall u (List.mem_cons_of_mem t hu)
    obtain ⟨cm1, hcm1, hprop⟩ := ih (fun T => if T = t
        then (cm t).filter (fun x => x ≠ e) else cm T) hnd.2 hall1
    refine ⟨cm1, hstep ▸ hcm1, fun T => ?_⟩
    rw [hprop T]
    by_cases hT1 : T ∈ ts1
    · have hTt : T ≠ t := fun heq => hnd.1 (heq ▸ hT1)
      rw [if_pos hT1, if_neg hTt, if_pos (List.mem_cons_of_mem t hT1)]
    · rw [if_neg hT1]
      by_cases hTt : T = t
      · subst hTt
        rw [if_pos rfl, if_pos (List.mem_cons_self T ts1)]
      · have hnm : T ∉ t :: ts1 := by
          intro hmem
          rcases List.mem_cons.mp hmem with heq | hmem2
          · exact hTt heq
          · exact hT1 hmem2
        rw [if_neg hTt, if_neg hnm]

theorem del_entity_ok (s : Scene) (hinv : SceneInv s) {e : Nat}
    {d : List (Nat × Nat)} (hd : alookup e s.entities = some d) :
    ∃ s1, del_entity s e = .ok s1 ∧
      s1.entities = aerase e s.entities ∧
      (∀ T, s1.comps T = if T ∈ d.map Prod.fst
        then (s.comps T).filter (fun x => x ≠ e) else s.comps T) ∧
      s1.heap = s.heap ∧ s1.systems = s.systems ∧ s1.priorities = s.priorities ∧
      s1.nextId = s.nextId := by
  obtain ⟨hnd, hinner, hfresh, hcnd, href⟩ := hinv
  have hmem := mem_of_alookup_eq_some hd
  have hkeysnd : (d.map Prod.fst).Nodup := hinner (e, d) hmem
  have hall : ∀ t ∈ d.map Prod.fst, e ∈ s.comps t := by
    intro t ht
    exact (href e t).mp ⟨d, hd, (alookup_isSome_iff t d).mpr ht⟩
  obtain ⟨cm1, hcm1, hprop⟩ :=
    delEntityComps_spec e (d.map Prod.fst) s.comps hkeysnd hall
  refine ⟨{ s with entities := aerase e s.entities, comps := cm1 },
    ?_, rfl, hprop, rfl, rfl, rfl, rfl⟩
  simp only [del_entity, hd, hcm1, Except.map]

theorem sceneInv_del_entity (s : Scene) (hinv : SceneInv s) (e : Nat)
    {s1 : Scene} (h : del_entity s e = .ok s1) : SceneInv s1 := by
  rcases hd : alookup e s.entities with _ | d
  · rw [del_entity, hd] at h
    exact Except.noConfusion h
  · obtain ⟨s2, hs2, hent, hcomps, hheap, hsys, hpr, hnext⟩ :=
      del_entity_ok s hinv hd
    have hs1 : s2 = s1 := Except.ok.inj (hs2 ▸ h)
    subst hs1
    obtain ⟨hnd, hinner, hfresh, hcnd, href⟩ := hinv
    refine ⟨?_, ?_, ?_, ?_, ?_⟩
    · rw [hent]
      exact nodup_keys_erase e hnd
    · intro p hp
      rw [hent] at hp
      exact hinner p (List.mem_of_mem_filter hp)
    · intro p hp
      rw [hent] at hp
      rw [hnext]
      exact hfresh p (List.mem_of_mem_filter hp)
    · intro T
      rw [hcomps T]
      by_cases hT : T ∈ d.map Prod.fst
      · rw [if_pos hT]
        exact (hcnd T).filter _
      · rw [if_neg hT]
        exact hcnd T
    · intro e1 T
      rw [hcomps T]
      by_cases he1 : e1 = e
      · subst he1
        rw [hent]
        constructor
        · rintro ⟨d1, hdd, _⟩
          rw [alookup_erase_self] at hdd
          exact Option.noConfusion hdd
        · intro hin
          by_cases hT : T ∈ d.map Prod.fst
          · rw [if_pos hT, mem_filter_ne] at hin
            exact absurd rfl hin.2
          · rw [if_neg hT] at hin
            obtain ⟨d1, hdd, hsome⟩ := (href e1 T).mpr hin
            have hd1 : d1 = d := (Option.some.inj (hd.symm.trans hdd)).symm
            subst hd1
            exact absurd ((alookup_isSome_iff T d1).mp hsome) hT
      · rw [hent, alookup_erase_ne s.entities he1]
        by_cases hT : T ∈ d.map Prod.fst
        · rw [if_pos hT, mem_filter_ne]
          rw [href e1 T]
          exact ⟨fun hx => ⟨hx, he1⟩, fun hx => hx.1⟩
        · rw [if_neg hT]
          exact href e1 T

/-- Claim C8: referential integrity between the two component indexes —
a component of type `T` is stored under entity `e` in the entity index iff
`e` is in the type index's entity set for `T` (`RefInv`, the final
conjunct of `SceneInv`) — holds for a fresh scene and is preserved by
every mutating Scene operation; the query operations do not modify the
model state. -/
theorem referential_integrity_preserved (s : Scene) (hinv : SceneInv s)
    (e c t : Nat) (cs : List Nat) :
    (RefInv s ∧ SceneInv (Scene.mkInit s.heap)) ∧
    SceneInv (create_entity s cs).1 ∧
    (∀ s1, add_component s e c = .ok s1 → SceneInv s1) ∧
    (∀ s1, add_components s e cs = .ok s1 → SceneInv s1) ∧
    (∀ s1, del_component s e t = .ok s1 → SceneInv s1) ∧
    (∀ s1, del_entity s e = .ok s1 → SceneInv s1) :=
  ⟨⟨hinv.2.2.2.2, sceneInv_mkInit s.heap⟩, sceneInv_create s hinv cs,
   fun _ h => sceneInv_add_component s hinv e c h,
   fun _ h => sceneInv_add_components s hinv e cs h,
   fun _ h => sceneInv_del_component s hinv e t h,
   fun _ h => sceneInv_del_entity s hinv e h⟩

/-- Witness for C8 on the concrete three-entity scene. -/
theorem referential_integrity_preserved_witness :
    (RefInv demoScene ∧ SceneInv (Scene.mkInit demoScene.heap)) ∧
    SceneInv (create_entity demoScene [13]).1 ∧
    (∀ s1, add_component demoScene 0 2 = .ok s1 → SceneInv s1) ∧
    (∀ s1, add_components demoScene 0 [13] = .ok s1 → SceneInv s1) ∧
    (∀ s1, del_component demoScene 0 1 = .ok s1 → SceneInv s1) ∧
    (∀ s1, del_entity demoScene 0 = .ok s1 → SceneInv s1) :=
  referential_integrity_preserved demoScene
    (sceneInv_create _ (sceneInv_create _ (sceneInv_create _
      (sceneInv_mkInit demoHeap) [1]) [2]) [11, 12]) 0 2 1 [13]

/-- Witness for C1 on the spec's vignette: entities `{T1}`, `{T2}`,
`{T1, T2}`; the query for both types yields exactly the third entity. -/
theorem get_entities_with_spec_witness :
    ([1, 2] : List Nat) ≠ [] ∧
    (get_entities_with demoScene [1, 2]).map Prod.fst = [2] ∧
    ((∀ e : Nat, e ∈ (get_entities_with demoScene [1, 2]).map Prod.fst ↔
      ∃ d, alookup e demoScene.entities = some d ∧
        ∀ t ∈ ([1, 2] : List Nat), (alookup t d).isSome = true) ∧
    (∀ (e : Nat) (cs : List (Option Nat)),
      (e, cs) ∈ get_entities_with demoScene [1, 2] →
      ∃ d, alookup e demoScene.entities = some d ∧
        cs = ([1, 2] : List Nat).map (fun t => alookup t d) ∧
        ∀ t ∈ ([1, 2] : List Nat), (alookup t d).isSome = true)) :=
  ⟨by decide, rfl,
   get_entities_with_spec demoScene
     (sceneInv_create _ (sceneInv_create _ (sceneInv_create _
       (sceneInv_mkInit demoHeap) [1]) [2]) [11, 12]) [1, 2] (by decide)⟩

/-- Claim C6: `del_entity` raises `MissingEntity` for an unregistered
entity id (before any mutation, so the state is unchanged); for a
registered entity it removes the entity and all its components from both
indexes, after which every operation referencing the entity raises
`MissingEntity` and the entity appears in no `get_entities_with` result. -/
theorem del_entity_invalidates (s : Scene) (hinv : SceneInv s) (e t c : Nat)
    (ts : List Nat) :
    (alookup e s.entities = none → del_entity s e = .error .missingEntity) ∧
    (∀ d, alookup e s.entities = some d →
      ∃ s1, del_entity s e = .ok s1 ∧
        alookup e s1.entities = none ∧
        (∀ T, e ∉ s1.comps T) ∧
        get_component s1 e t = .error .missingEntity ∧
        get_components s1 e ts = .error .missingEntity ∧
        add_component s1 e c = .error .missingEntity ∧
        del_component s1 e t = .error .missingEntity ∧
        has_component s1 e t = .error .missingEntity ∧
        del_entity s1 e = .error .missingEntity ∧
        e ∉ (get_entities_with s1 ts).map Prod.fst) := by
  constructor
  · intro h
    rw [del_entity, h]
  · intro d hd
    obtain ⟨s1, hok, hent, hcomps, _, _, _, _⟩ := del_entity_ok s hinv hd
    obtain ⟨hnd, hinner, hfresh, hcnd, href⟩ := hinv
    have hnone : alookup e s1.entities = none := by
      rw [hent]
      exact alookup_erase_self e s.entities
    have hnot : ∀ T, e ∉ s1.comps T := by
      intro T hin
      rw [hcomps T] at hin
      by_cases hT : T ∈ d.map Prod.fst
      · rw [if_pos hT, mem_filter_ne] at hin
        exact hin.2 rfl
      · rw [if_neg hT] at hin
        obtain ⟨d1, hdd, hsome⟩ := (href e T).mpr hin
        have hd1 : d1 = d := (Option.some.inj (hd.symm.trans hdd)).symm
        subst hd1
        exact hT ((alookup_isSome_iff T d1).mp hsome)
    refine ⟨s1, hok, hnone, hnot, ?_, ?_, ?_, ?_, ?_, ?_, ?_⟩
    · simp only [get_component, hnone]
    · simp only [get_components, hnone]
    · simp only [add_component, hnone]
    · simp only [del_component, hnone]
    · simp only [has_component, hnone]
    · simp only [del_entity, hnone]
    · intro hmem
      obtain ⟨⟨e1, cs1⟩, hmem1, he⟩ := List.mem_map.mp hmem
      cases he
      by_cases hts : ts = []
      · subst hts
        simp [get_entities_with] at hmem1
      · obtain ⟨d1, hmem2, _, _⟩ := (mem_get_entities_with hts e1 cs1).mp hmem1
        exact (alookup_eq_none_iff e1 s1.entities).mp hnone
          (List.mem_map.mpr ⟨(e1, d1), hmem2, rfl⟩)

/-- Witness for C6: deleting entity 0 (which holds a type-1 component) of
a one-entity scene invalidates every later reference to it. -/
theorem del_entity_invalidates_witness :
    ∃ s1, del_entity (create_entity (Scene.mkInit unitHeap) [1]).1 0 = .ok s1 ∧
      alookup 0 s1.entities = none ∧
      (∀ T, 0 ∉ s1.comps T) ∧
      get_component s1 0 1 = .error .missingEntity ∧
      get_components s1 0 [1] = .error .missingEntity ∧
      add_component s1 0 2 = .error .missingEntity ∧
      del_component s1 0 1 = .error .missingEntity ∧
      has_component s1 0 1 = .error .missingEntity ∧
      del_entity s1 0 = .error .missingEntity ∧
      0 ∉ (get_entities_with s1 [1]).map Prod.fst :=
  (del_entity_invalidates (create_entity (Scene.mkInit unitHeap) [1]).1
    (sceneInv_create _ (sceneInv_mkInit unitHeap) [1]) 0 1 2 [1]).2 [(1, 1)] rfl

/-- Claim C7 (counterexample): with entity 0 holding the type-1 component
object 11, `del_entity` leaves both back-reference fields of component 11
set — refuting the claim that deleting the owning entity clears the
back-reference — and `del_component` leaves the `scene` field set. -/
theorem del_entity_leaves_backref :
    (del_entity (create_entity (Scene.mkInit demoHeap) [11]).1 0).map
      (fun s1 => ((s1.heap 11).entity, (s1.heap 11).scene))
      = .ok (some 0, some 0) ∧
    (del_component (create_entity (Scene.mkInit demoHeap) [11]).1 0 1).map
      (fun s1 => ((s1.heap 11).entity, (s1.heap 11).scene))
      = .ok (none, some 0) := by
  refine ⟨rfl, rfl⟩

/-- Claim C7 (amended): `del_component` detaches the component from both
indexes and clears only its `entity` back-reference — the `scene` field
keeps its value — while `del_entity` leaves every component back-reference
untouched; `del_component` raises `MissingComponent` when the entity does
not hold a component of the requested type (before any mutation). -/
theorem del_component_detach (s : Scene) (href : RefInv s) (e t : Nat)
    (d : List (Nat × Nat)) (hd : alookup e s.entities = some d) :
    (∀ c, alookup t d = some c →
      ∃ s1, del_component s e t = .ok s1 ∧
        (s1.heap c).entity = none ∧
        (s1.heap c).scene = (s.heap c).scene ∧
        (s1.heap c).ctype = (s.heap c).ctype ∧
        alookup e s1.entities = some (aerase t d) ∧
        e ∉ s1.comps t) ∧
    (alookup t d = none → del_component s e t = .error .missingComponent) ∧
    (∀ s1, del_entity s e = .ok s1 → s1.heap = s.heap) := by
  refine ⟨?_, ?_, ?_⟩
  · intro c ht
    have hin : e ∈ s.comps t :=
      (href e t).mp ⟨d, hd, by rw [ht]; rfl⟩
    refine ⟨{ s with
        entities := aupdate e (aerase t d) s.entities,
        comps := fun T => if T = t then (s.comps t).filter (fun x => x ≠ e)
          else s.comps T,
        heap := fun i => if i = c then { s.heap i with entity := none }
          else s.heap i }, ?_, ?_, ?_, ?_, ?_, ?_⟩
    · simp only [del_component, hd, ht, setRemove_eq_ok hin, Except.map]
    · simp
    · simp
    · simp
    · exact alookup_update_self _ _ _
    · dsimp only
      rw [if_pos rfl, mem_filter_ne]
      rintro ⟨_, habs⟩
      exact habs rfl
  · intro ht
    simp only [del_component, hd, ht]
  · intro s1 h
    simp only [del_entity, hd] at h
    rcases hr : delEntityComps e (d.map Prod.fst) s.comps with e2 | cm
    · rw [hr] at h
      exact Except.noConfusion h
    · rw [hr] at h
      simp only [Except.map] at h
      have hs1 : { s with entities := aerase e s.entities, comps := cm } = s1 :=
        Except.ok.inj h
      subst hs1
      rfl

/-- Witness for the amended C7 on the concrete one-entity scene. -/
theorem del_component_detach_witness :
    ∃ s1, del_component (create_entity (Scene.mkInit demoHeap) [11]).1 0 1
        = .ok s1 ∧
      (s1.heap 11).entity = none ∧
      (s1.heap 11).scene
        = ((create_entity (Scene.mkInit demoHeap) [11]).1.heap 11).scene ∧
      (s1.heap 11).ctype
        = ((create_entity (Scene.mkInit demoHeap) [11]).1.heap 11).ctype ∧
      alookup 0 s1.entities = some (aerase 1 [(1, 11)]) ∧
      0 ∉ s1.comps 1 :=
  (del_component_detach (create_entity (Scene.mkInit demoHeap) [11]).1
      (sceneInv_create _ (sceneInv_mkInit demoHeap) [11]).2.2.2.2
      0 1 [(1, 11)] rfl).1 11 rfl

end ECS
